import Mathlib

/-!
# Dense matrix multiplication: naive and blocked engines

A shallow embedding of `mm-simple.c` and `mm-block.c`.

Modelling conventions.

* Buffers (`double *`) are lists; every read and write is bounds-checked and an
  access outside the buffer stops the run with `Fault.outOfBounds`.
* `double` arithmetic is abstracted: the engines take the addition and the
  multiplication (and, for the naive engine, the literal `0.0`) as parameters.
  "Exact arithmetic" means instantiating them with the operations of a semiring.
* `size_t` loop counters and index expressions are natural numbers.  When the
  dimensions are at most `2^63` and the buffer lengths are below `2^64`, none
  of `i*m+k`, `k*p+j`, `i*p+j`, `is+y`, `js+z`, `ks+x` wraps (a tile start is
  `0` or at least the tile size, and lies below the dimension), so no reduction
  modulo `2^64` is applied in the engines.  The one place where wrap-around
  decides behaviour, the cast `(size_t)atol(optarg)` in `main`, is modelled
  modulo `2^64`.
* A `for` loop whose step is a run-time value (`is += y`) may fail to advance,
  so loops carry fuel; running out of it is reported as `Fault.outOfFuel`.
-/

namespace MatMult

/-! ## Execution model -/

/-- Ways in which a run of the embedded code can stop without a result. -/
inductive Fault where
  | outOfBounds
  | outOfFuel
  deriving DecidableEq

/-- The preprocessor definition `ROWMJR(r,c,nr,nc)`, that is `(r*nc+c)`. -/
def ROWMJR (r c _nr nc : Nat) : Nat := r * nc + c

/-- Checked read `buf[idx]`. -/
def load {α : Type} (buf : List α) (idx : Nat) : Except Fault α :=
  match buf[idx]? with
  | some v => .ok v
  | none => .error .outOfBounds

/-- Checked write `buf[idx] = v`. -/
def store {α : Type} (buf : List α) (idx : Nat) (v : α) : Except Fault (List α) :=
  if idx < buf.length then .ok (buf.set idx v) else .error .outOfBounds

/-- The loop `for (; i < hi; i += step) body`, started at counter value `i`
with state `s`, allowed at most `fuel` iterations. -/
def forLoop {σ : Type} (body : Nat → σ → Except Fault σ) (hi step : Nat) :
    Nat → Nat → σ → Except Fault σ
  | 0, i, s => if i < hi then .error .outOfFuel else .ok s
  | fuel + 1, i, s =>
    if i < hi then
      match body i s with
      | .ok s' => forLoop body hi step fuel (i + step) s'
      | .error e => .error e
    else .ok s

/-- The loop `for (i = lo; i < hi; ++i) body`.  It makes exactly `hi - lo`
iterations, so that much fuel is always enough. -/
def forRange {σ : Type} (lo hi : Nat) (body : Nat → σ → Except Fault σ) (s : σ) :
    Except Fault σ :=
  forLoop body hi 1 (hi - lo) lo s

/-! ## `mm-simple.c` -/

/-- The naive engine `S_matmult(n, m, p, A, B, C)` of `mm-simple.c`.
`A(r,c)` is `A[ROWMJR(r,c,n,m)]`, `B(r,c)` is `B[ROWMJR(r,c,m,p)]` and
`C(r,c)` is `C[ROWMJR(r,c,n,p)]`; the `j` loop runs to `m` and the `k` loop
to `p`, as in the source. -/
def S_matmult {α : Type} (zero : α) (add mul : α → α → α) (n m p : Nat)
    (A B C : List α) : Except Fault (List α) :=
  forRange 0 n (fun i C =>
    forRange 0 m (fun j C => do
      let cv ← forRange 0 p (fun k cv => do
        let a ← load A (ROWMJR i k n m)
        let b ← load B (ROWMJR k j m p)
        pure (add cv (mul a b))) zero
      store C (ROWMJR i j n p) cv) C) C

/-! ## `mm-block.c` -/

/-- The innermost statement group of `S_matmult_blk` for one cell `(i, j)` and
one shared-dimension tile `[ks, ke)`:
`cv = C(i,j); for (k = ks; k < ke; ++k) cv += A(i,k)*B(k,j); C(i,j) = cv;`. -/
def blk_cell {α : Type} (add mul : α → α → α) (n m p : Nat) (A B : List α)
    (ks ke i j : Nat) (C : List α) : Except Fault (List α) := do
  let cv ← load C (ROWMJR i j n p)
  let cv ← forRange ks ke (fun k cv => do
    let a ← load A (ROWMJR i k n m)
    let b ← load B (ROWMJR k j m p)
    pure (add cv (mul a b))) cv
  store C (ROWMJR i j n p) cv

/-- The blocked engine `S_matmult_blk(n, m, p, x, y, z, A, B, C)` of
`mm-block.c`: row tiles step by `y`, column tiles by `z`, shared-dimension
tiles by `x`.  `min` stands for the source's `min(x,y)`, `((x)<(y)?(x):(y))`.
`fuel` bounds the iterations of each tile loop. -/
def S_matmult_blk {α : Type} (add mul : α → α → α) (fuel n m p x y z : Nat)
    (A B C : List α) : Except Fault (List α) :=
  forLoop (fun is C =>
    let ie := min (is + y) n
    forLoop (fun js C =>
      let je := min (js + z) p
      forLoop (fun ks C =>
        let ke := min (ks + x) m
        forRange is ie (fun i C =>
          forRange js je (fun j C => blk_cell add mul n m p A B ks ke i j C) C) C)
        m x fuel 0 C)
      p z fuel 0 C)
    n y fuel 0 C

/-- The conversion `(size_t)v` of a `long` value. -/
def toSizeT (v : Int) : Nat := (v % 2 ^ 64).toNat

/-- The option variables of `main` in `mm-block.c`. -/
structure Opts where
  num_threads : Int
  x : Nat
  y : Nat
  z : Nat
  deriving DecidableEq

/-- How the configuration phase of `main` ends. -/
inductive Config where
  | usage
  | abort
  | proceed (o : Opts)
  deriving DecidableEq

/-- The `getopt` loop of `main`.  Each element is the option character that
`getopt` returns together with the integer that `atoi`/`atol` reads from
`optarg`; `none` is the `default` branch (usage message, `EXIT_FAILURE`). -/
def main_getopt : List (Char × Int) → Opts → Option Opts
  | [], o => some o
  | (c, v) :: rest, o =>
    if c = 't' then main_getopt rest { o with num_threads := v }
    else if c = 'x' then main_getopt rest { o with x := toSizeT v }
    else if c = 'y' then main_getopt rest { o with y := toSizeT v }
    else if c = 'z' then main_getopt rest { o with z := toSizeT v }
    else none

/-- The assertions `num_threads > 0`, `x > 0`, `y > 0`, `z > 0` of `main`. -/
def main_validate (o : Opts) : Bool :=
  decide (o.num_threads > 0) && decide (o.x > 0) && decide (o.y > 0) && decide (o.z > 0)

/-- The part of `main` that precedes the first `S_matload`: defaults, option
loop, the assertion on the number of positional arguments (`npos` stands for
`argc - optind`) and the validation assertions. -/
def main_config (flags : List (Char × Int)) (npos : Nat) : Config :=
  match main_getopt flags ⟨1, 1, 1, 1⟩ with
  | none => .usage
  | some o => if npos = 3 ∧ main_validate o = true then .proceed o else .abort

/-- The "Fix-up input" block of `main` followed by the argument list of the
call `S_matmult_blk(n, m, p, y, x, z, A, B, C)`: the result lists the fourth,
fifth and sixth actual arguments, which the engine receives as its parameters
`x`, `y` and `z` in that order. -/
def main_args (n m p x y z : Nat) : Nat × Nat × Nat :=
  let y := if y < n then y else n
  let x := if x < m then x else m
  let z := if z < p then z else p
  (y, x, z)

/-- The multiplication step of `main`: `C = calloc(n * p, ...)`, fix-up, and
the call of the engine. -/
def main_mult {α : Type} (zero : α) (add mul : α → α → α) (fuel n m p x y z : Nat)
    (A B : List α) : Except Fault (List α) :=
  let C := List.replicate (n * p) zero
  let a := main_args n m p x y z
  S_matmult_blk add mul fuel n m p a.1 a.2.1 a.2.2 A B C

/-! ## Specification-side definitions -/

/-- Cell `(i, j)` of a row-major buffer with `p` columns. -/
def cell {α : Type} (p : Nat) (d : α) (C : List α) (i j : Nat) : α :=
  C.getD (i * p + j) d

/-- The running value of cell `(i, j)` after the terms `k = 0, ..., K-1` have
been added, in that order, to the start value `c0`. -/
def dotAcc {α : Type} (add mul : α → α → α) (m p : Nat) (d : α) (A B : List α)
    (i j : Nat) (c0 : α) : Nat → α
  | 0 => c0
  | k + 1 => add (dotAcc add mul m p d A B i j c0 k)
      (mul (A.getD (i * m + k) d) (B.getD (k * p + j) d))

/-- The buffer `B` holds the `m × m` identity matrix. -/
def IsIdentity {R : Type} [Semiring R] (m : Nat) (B : List R) : Prop :=
  B.length = m * m ∧
    ∀ k, k < m → ∀ j, j < m → B.getD (k * m + j) 0 = if k = j then 1 else 0

/-- Safety reading of a run: a result, if there is one, satisfies `Q`, and the
run does not stop on an out-of-bounds access (it may run out of fuel). -/
def Wp {σ : Type} (r : Except Fault σ) (Q : σ → Prop) : Prop :=
  match r with
  | .ok s => Q s
  | .error .outOfFuel => True
  | .error .outOfBounds => False

/-- Relation between the buffer before (`C`) and after (`C'`) a piece of the
engine that works on the cells selected by `S`: the length is `n * p`, the
selected cells satisfy `post`, the other cells are unchanged. -/
def Upd {α : Type} (n p : Nat) (d : α) (S : Nat → Nat → Prop)
    (post : Nat → Nat → α → Prop) (C C' : List α) : Prop :=
  C'.length = n * p ∧
  (∀ i j, i < n → j < p → S i j → post i j (cell p d C' i j)) ∧
  (∀ i j, i < n → j < p → ¬ S i j → cell p d C' i j = cell p d C i j)

/-- Specification of a piece `f` of an engine: started on an `n × p` buffer
whose cells selected by `S` satisfy `pre`, it makes no out-of-bounds access and
a result is related to the start buffer by `Upd`. -/
def HT {α : Type} (n p : Nat) (d : α) (S : Nat → Nat → Prop)
    (pre post : Nat → Nat → α → Prop) (f : List α → Except Fault (List α)) : Prop :=
  ∀ C, C.length = n * p → (∀ i j, i < n → j < p → S i j → pre i j (cell p d C i j)) →
    Wp (f C) (Upd n p d S post C)

/-! ## Reasoning about runs -/

theorem Wp_ok {σ : Type} {s : σ} {Q : σ → Prop} (h : Q s) : Wp (.ok s) Q := h

theorem Wp_mono {σ : Type} {r : Except Fault σ} {Q Q' : σ → Prop}
    (h : Wp r Q) (hQ : ∀ s, Q s → Q' s) : Wp r Q' := by
  cases r with
  | ok s => exact hQ s h
  | error e => cases e <;> exact h

theorem Wp_bind {σ τ : Type} {r : Except Fault σ} {f : σ → Except Fault τ}
    {Q : τ → Prop} (h : Wp r (fun s => Wp (f s) Q)) : Wp (r >>= f) Q := by
  cases r with
  | ok s => exact h
  | error e => cases e <;> exact h

theorem Wp_not_oob {σ : Type} {r : Except Fault σ} {Q : σ → Prop} (h : Wp r Q) :
    r ≠ .error .outOfBounds := by
  intro hr
  rw [hr] at h
  exact h

theorem Wp_total {σ : Type} {r : Except Fault σ} {Q : σ → Prop} (h : Wp r Q)
    (hf : r ≠ .error .outOfFuel) : ∃ s, r = .ok s ∧ Q s := by
  cases r with
  | ok s => exact ⟨s, rfl, h⟩
  | error e =>
    cases e with
    | outOfBounds => exact absurd h id
    | outOfFuel => exact absurd rfl hf

theorem load_eq {α : Type} (d : α) {buf : List α} {idx : Nat} (h : idx < buf.length) :
    load buf idx = .ok (buf.getD idx d) := by
  simp [load, List.getD, List.getElem?_eq_getElem h]

theorem store_eq {α : Type} {buf : List α} {idx : Nat} (v : α) (h : idx < buf.length) :
    store buf idx v = .ok (buf.set idx v) := by
  simp [store, h]

/-- Invariant rule for `forLoop`: `P` is indexed by the counter clamped to the
bound. -/
theorem forLoop_wp {σ : Type} (body : Nat → σ → Except Fault σ) (hi step : Nat)
    (P : Nat → σ → Prop) :
    ∀ (fuel lo : Nat) (s : σ), P (min lo hi) s →
      (∀ t s, lo ≤ t → t < hi → P t s → Wp (body t s) (P (min (t + step) hi))) →
      Wp (forLoop body hi step fuel lo s) (P hi) := by
  intro fuel
  induction fuel with
  | zero =>
    intro lo s h0 _
    by_cases hlt : lo < hi
    · simp [forLoop, hlt, Wp]
    · have hmin : min lo hi = hi := Nat.min_eq_right (Nat.le_of_not_lt hlt)
      rw [hmin] at h0
      simpa [forLoop, hlt, Wp] using h0
  | succ f ih =>
    intro lo s h0 hb
    by_cases hlt : lo < hi
    · have hmin : min lo hi = lo := Nat.min_eq_left (Nat.le_of_lt hlt)
      rw [hmin] at h0
      have hstep := hb lo s (Nat.le_refl lo) hlt h0
      simp only [forLoop, hlt, if_true]
      cases hr : body lo s with
      | ok s' =>
        rw [hr] at hstep
        exact ih (lo + step) s' hstep
          (fun t s ht hth hP => hb t s (Nat.le_trans (Nat.le_add_right lo step) ht) hth hP)
      | error e =>
        rw [hr] at hstep
        cases e <;> exact hstep
    · have hmin : min lo hi = hi := Nat.min_eq_right (Nat.le_of_not_lt hlt)
      rw [hmin] at h0
      simpa [forLoop, hlt, Wp] using h0

/-- A loop whose step is positive, whose body never runs out of fuel, and
which is given `hi - lo` iterations, does not run out of fuel. -/
theorem forLoop_fuel {σ : Type} (body : Nat → σ → Except Fault σ) (hi step : Nat)
    (hstep : 0 < step) (hb : ∀ t s, body t s ≠ .error .outOfFuel) :
    ∀ (fuel lo : Nat) (s : σ), hi - lo ≤ fuel →
      forLoop body hi step fuel lo s ≠ .error .outOfFuel := by
  intro fuel
  induction fuel with
  | zero =>
    intro lo s hf
    have hlt : ¬ lo < hi := by omega
    simp [forLoop, hlt]
  | succ f ih =>
    intro lo s hf
    by_cases hlt : lo < hi
    · simp only [forLoop, hlt, if_true]
      cases hr : body lo s with
      | ok s' => exact ih (lo + step) s' (by omega)
      | error e =>
        have := hb lo s
        rw [hr] at this
        exact this
    · simp [forLoop, hlt]

theorem forRange_fuel {σ : Type} (body : Nat → σ → Except Fault σ) (lo hi : Nat)
    (hb : ∀ t s, body t s ≠ .error .outOfFuel) (s : σ) :
    forRange lo hi body s ≠ .error .outOfFuel :=
  forLoop_fuel body hi 1 Nat.one_pos hb (hi - lo) lo s (Nat.le_refl _)

theorem forRange_wp {σ : Type} (body : Nat → σ → Except Fault σ) (lo hi : Nat)
    (P : Nat → σ → Prop) (s : σ) (h0 : P (min lo hi) s)
    (hb : ∀ t s, lo ≤ t → t < hi → P t s → Wp (body t s) (P (min (t + 1) hi))) :
    Wp (forRange lo hi body s) (P hi) :=
  forLoop_wp body hi 1 P (hi - lo) lo s h0 hb

/-- A loop that is entered with step `0` and whose body leaves the state as it
is never ends: it exhausts every amount of fuel. -/
theorem forLoop_stuck {σ : Type} (body : Nat → σ → Except Fault σ) (hi i : Nat) (s : σ)
    (hlt : i < hi) (hb : body i s = .ok s) :
    ∀ fuel, forLoop body hi 0 fuel i s = .error .outOfFuel := by
  intro fuel
  induction fuel with
  | zero => simp [forLoop, hlt]
  | succ f ih => simpa [forLoop, hlt, hb] using ih

theorem bind_fuel {σ τ : Type} {r : Except Fault σ} {f : σ → Except Fault τ}
    (hr : r ≠ .error .outOfFuel) (hf : ∀ s, f s ≠ .error .outOfFuel) :
    (r >>= f) ≠ .error .outOfFuel := by
  cases r with
  | ok s => exact hf s
  | error e =>
    cases e with
    | outOfBounds => simp [bind, Except.bind]
    | outOfFuel => exact absurd rfl hr

theorem load_fuel {α : Type} (buf : List α) (idx : Nat) :
    load buf idx ≠ .error .outOfFuel := by
  unfold load
  cases buf[idx]? <;> simp

theorem store_fuel {α : Type} (buf : List α) (idx : Nat) (v : α) :
    store buf idx v ≠ .error .outOfFuel := by
  unfold store
  split <;> simp

/-! ## Cells of a row-major buffer -/

theorem idx_lt {n p i j : Nat} (hi : i < n) (hj : j < p) : i * p + j < n * p := by
  have h : (i + 1) * p ≤ n * p := Nat.mul_le_mul_right p hi
  rw [Nat.add_mul, Nat.one_mul] at h
  omega

theorem idx_inj {p i j i' j' : Nat} (hj : j < p) (hj' : j' < p)
    (h : i * p + j = i' * p + j') : i = i' ∧ j = j' := by
  have hp : 0 < p := by omega
  have h1 : (i * p + j) / p = i := by
    rw [Nat.add_comm, Nat.add_mul_div_right _ _ hp, Nat.div_eq_of_lt hj, Nat.zero_add]
  have h2 : (i' * p + j') / p = i' := by
    rw [Nat.add_comm, Nat.add_mul_div_right _ _ hp, Nat.div_eq_of_lt hj', Nat.zero_add]
  have hii : i = i' := by rw [← h1, ← h2, h]
  subst hii
  exact ⟨rfl, by omega⟩

theorem cell_set_same {α : Type} (p : Nat) (d : α) (C : List α) (i j : Nat) (v : α)
    (h : i * p + j < C.length) : cell p d (C.set (i * p + j) v) i j = v := by
  simp [cell, List.getD_eq_getElem?_getD, List.getElem?_set, h]

theorem cell_set_other {α : Type} (p : Nat) (d : α) (C : List α) (i j i' j' : Nat) (v : α)
    (hj : j < p) (hj' : j' < p) (hne : ¬ (i' = i ∧ j' = j)) :
    cell p d (C.set (i * p + j) v) i' j' = cell p d C i' j' := by
  have hidx : i * p + j ≠ i' * p + j' := by
    intro h
    have := idx_inj hj hj' h
    exact hne ⟨this.1.symm, this.2.symm⟩
  simp [cell, List.getD_eq_getElem?_getD, List.getElem?_set, hidx]

/-! ## Composition rules for buffer specifications -/

theorem HT_congr {α : Type} {n p : Nat} {d : α} {S S' : Nat → Nat → Prop}
    {pre post : Nat → Nat → α → Prop} {f : List α → Except Fault (List α)}
    (hS : ∀ i j, i < n → j < p → (S i j ↔ S' i j)) (h : HT n p d S pre post f) :
    HT n p d S' pre post f := by
  intro C hlen hpre
  refine Wp_mono (h C hlen (fun i j hi hj hs => hpre i j hi hj ((hS i j hi hj).1 hs))) ?_
  intro C' hU
  exact ⟨hU.1, fun i j hi hj hs => hU.2.1 i j hi hj ((hS i j hi hj).2 hs),
    fun i j hi hj hs => hU.2.2 i j hi hj (fun h' => hs ((hS i j hi hj).1 h'))⟩

/-- A loop that sweeps over pairwise disjoint slices `T u` of the buffer, the
iteration at counter `t` handling the slices `t ≤ u < min (t + step) hi`. -/
theorem HT_sweep {α : Type} {n p : Nat} {d : α} (T : Nat → Nat → Nat → Prop)
    (hT : ∀ u u' i j, T u i j → T u' i j → u = u')
    (pre post : Nat → Nat → α → Prop) (body : Nat → List α → Except Fault (List α))
    (hi step fuel lo : Nat)
    (hb : ∀ t, lo ≤ t → t < hi →
      HT n p d (fun i j => ∃ u, t ≤ u ∧ u < min (t + step) hi ∧ T u i j) pre post (body t)) :
    HT n p d (fun i j => ∃ u, lo ≤ u ∧ u < hi ∧ T u i j) pre post
      (fun C => forLoop body hi step fuel lo C) := by
  intro C hlen hpre
  refine Wp_mono (forLoop_wp body hi step
    (fun t C' => C'.length = n * p ∧
      (∀ i j, i < n → j < p → ∀ u, lo ≤ u → u < t → T u i j → post i j (cell p d C' i j)) ∧
      (∀ i j, i < n → j < p → ∀ u, t ≤ u → u < hi → T u i j → pre i j (cell p d C' i j)) ∧
      (∀ i j, i < n → j < p → (¬ ∃ u, lo ≤ u ∧ u < hi ∧ T u i j) →
        cell p d C' i j = cell p d C i j))
    fuel lo C ?_ ?_) ?_
  · refine ⟨hlen, ?_, ?_, fun _ _ _ _ _ => rfl⟩
    · intro i j _ _ u h1 h2 _
      omega
    · intro i j hi' hj' u h1 h2 hTu
      exact hpre i j hi' hj' ⟨u, by omega, h2, hTu⟩
  · intro t C1 hlo hthi hP
    obtain ⟨hlen1, hdone, htodo, hframe⟩ := hP
    refine Wp_mono (hb t hlo hthi C1 hlen1 ?_) ?_
    · rintro i j hi' hj' ⟨u, h1, h2, hTu⟩
      exact htodo i j hi' hj' u h1 (by omega) hTu
    · intro C2 hU
      obtain ⟨hlen2, hpost, hsame⟩ := hU
      refine ⟨hlen2, ?_, ?_, ?_⟩
      · intro i j hi' hj' u h1 h2 hTu
        by_cases hut : u < t
        · rw [hsame i j hi' hj' ?_]
          · exact hdone i j hi' hj' u h1 hut hTu
          · rintro ⟨u', h1', _, hTu'⟩
            have := hT u u' i j hTu hTu'
            omega
        · exact hpost i j hi' hj' ⟨u, by omega, h2, hTu⟩
      · intro i j hi' hj' u h1 h2 hTu
        rw [hsame i j hi' hj' ?_]
        · exact htodo i j hi' hj' u (by omega) h2 hTu
        · rintro ⟨u', _, h2', hTu'⟩
          have := hT u u' i j hTu hTu'
          omega
      · intro i j hi' hj' hnot
        rw [hsame i j hi' hj' ?_]
        · exact hframe i j hi' hj' hnot
        · rintro ⟨u', h1', h2', hTu'⟩
          exact hnot ⟨u', by omega, by omega, hTu'⟩
  · intro C' hP
    obtain ⟨hlen', hdone, _, hframe⟩ := hP
    refine ⟨hlen', ?_, hframe⟩
    rintro i j hi' hj' ⟨u, h1, h2, hTu⟩
    exact hdone i j hi' hj' u h1 h2 hTu

/-- A loop that takes a fixed set `S` of cells through the stages `v t`. -/
theorem HT_progress {α : Type} {n p : Nat} {d : α} (S : Nat → Nat → Prop)
    (v : Nat → Nat → Nat → α → Prop) (body : Nat → List α → Except Fault (List α))
    (hi step fuel lo : Nat)
    (hb : ∀ t, lo ≤ t → t < hi → HT n p d S (v t) (v (min (t + step) hi)) (body t)) :
    HT n p d S (v (min lo hi)) (v hi) (fun C => forLoop body hi step fuel lo C) := by
  intro C hlen hpre
  refine Wp_mono (forLoop_wp body hi step
    (fun t C' => C'.length = n * p ∧
      (∀ i j, i < n → j < p → S i j → v t i j (cell p d C' i j)) ∧
      (∀ i j, i < n → j < p → ¬ S i j → cell p d C' i j = cell p d C i j))
    fuel lo C ⟨hlen, hpre, fun _ _ _ _ _ => rfl⟩ ?_) (fun C' hP => hP)
  intro t C1 hlo hthi hP
  obtain ⟨hlen1, hv, hframe⟩ := hP
  refine Wp_mono (hb t hlo hthi C1 hlen1 hv) ?_
  intro C2 hU
  obtain ⟨hlen2, hpost, hsame⟩ := hU
  refine ⟨hlen2, hpost, ?_⟩
  intro i j hi' hj' hnot
  rw [hsame i j hi' hj' hnot]
  exact hframe i j hi' hj' hnot

/-! ## The dot-product loop and the cell update -/

theorem kloop_wp {α : Type} (add mul : α → α → α) (n m p : Nat) (d : α) (A B : List α)
    (hA : A.length = n * m) (hB : B.length = m * p) (i j : Nat) (hi : i < n) (hj : j < p)
    (c0 : α) (ks ke : Nat) (hks : ks ≤ ke) (hke : ke ≤ m) :
    Wp (forRange ks ke (fun k cv => do
          let a ← load A (ROWMJR i k n m)
          let b ← load B (ROWMJR k j m p)
          pure (add cv (mul a b))) (dotAcc add mul m p d A B i j c0 ks))
      (fun cv => cv = dotAcc add mul m p d A B i j c0 ke) := by
  refine forRange_wp _ ks ke (fun t cv => cv = dotAcc add mul m p d A B i j c0 t) _ ?_ ?_
  · rw [Nat.min_eq_left hks]
  · intro t cv _ htke hcv
    have htm : t < m := Nat.lt_of_lt_of_le htke hke
    have h1 : ROWMJR i t n m < A.length := by rw [hA]; exact idx_lt hi htm
    have h2 : ROWMJR t j m p < B.length := by rw [hB]; exact idx_lt htm hj
    rw [load_eq d h1, load_eq d h2, Nat.min_eq_left (Nat.succ_le_of_lt htke)]
    show add cv _ = _
    rw [hcv]
    rfl

theorem kloop_fuel {α : Type} (add mul : α → α → α) (n m p : Nat) (A B : List α)
    (i j ks ke : Nat) (c : α) :
    forRange ks ke (fun k cv => do
        let a ← load A (ROWMJR i k n m)
        let b ← load B (ROWMJR k j m p)
        pure (add cv (mul a b))) c ≠ .error .outOfFuel := by
  refine forRange_fuel _ ks ke ?_ c
  intro t cv
  refine bind_fuel (load_fuel _ _) (fun a => bind_fuel (load_fuel _ _) (fun b => ?_))
  simp [pure, Except.pure]

theorem store_Upd {α : Type} (n p : Nat) (d : α) (C : List α) (hlen : C.length = n * p)
    (i j : Nat) (hi : i < n) (hj : j < p) (v : α) (post : Nat → Nat → α → Prop)
    (hv : post i j v) :
    Wp (store C (ROWMJR i j n p) v) (Upd n p d (fun i' j' => i' = i ∧ j' = j) post C) := by
  have hidx : i * p + j < C.length := by rw [hlen]; exact idx_lt hi hj
  have hs : store C (ROWMJR i j n p) v = .ok (C.set (i * p + j) v) := store_eq v hidx
  rw [hs]
  refine ⟨by simp [hlen], ?_, ?_⟩
  · rintro i' j' _ _ ⟨rfl, rfl⟩
    rw [cell_set_same p d C _ _ v hidx]
    exact hv
  · intro i' j' _ hj' hne
    exact cell_set_other p d C i j i' j' v hj hj' hne

/-- One cell, one shared-dimension tile: the cell advances from stage `ks` to
stage `ke`. -/
theorem blk_cell_HT {α : Type} (add mul : α → α → α) (n m p : Nat) (d : α)
    (A B C0 : List α) (hA : A.length = n * m) (hB : B.length = m * p)
    (ks ke : Nat) (hks : ks ≤ ke) (hke : ke ≤ m) (i j : Nat) (hi : i < n) (hj : j < p) :
    HT n p d (fun i' j' => i' = i ∧ j' = j)
      (fun i j c => c = dotAcc add mul m p d A B i j (cell p d C0 i j) ks)
      (fun i j c => c = dotAcc add mul m p d A B i j (cell p d C0 i j) ke)
      (blk_cell add mul n m p A B ks ke i j) := by
  intro C hlen hpre
  have hidx : ROWMJR i j n p < C.length := by rw [hlen]; exact idx_lt hi hj
  have hc : C.getD (ROWMJR i j n p) d = dotAcc add mul m p d A B i j (cell p d C0 i j) ks :=
    hpre i j hi hj ⟨rfl, rfl⟩
  unfold blk_cell
  rw [load_eq d hidx, hc]
  refine Wp_bind (r := Except.ok _) ?_
  show Wp (forRange ks ke _ _ >>= _) _
  refine Wp_bind (Wp_mono (kloop_wp add mul n m p d A B hA hB i j hi hj _ ks ke hks hke) ?_)
  intro cv hcv
  exact store_Upd n p d C hlen i j hi hj cv _ hcv

theorem blk_cell_fuel {α : Type} (add mul : α → α → α) (n m p : Nat) (A B : List α)
    (ks ke i j : Nat) (C : List α) :
    blk_cell add mul n m p A B ks ke i j C ≠ .error .outOfFuel := by
  unfold blk_cell
  exact bind_fuel (load_fuel _ _)
    (fun cv => bind_fuel (kloop_fuel add mul n m p A B i j ks ke cv) (fun cv' => store_fuel _ _ _))

/-! ## The blocked engine, loop by loop -/

/-- The `j` loop of one tile triple, for row `i`. -/
theorem blk_jloop_HT {α : Type} (add mul : α → α → α) (n m p : Nat) (d : α)
    (A B C0 : List α) (hA : A.length = n * m) (hB : B.length = m * p)
    (ks ke : Nat) (hks : ks ≤ ke) (hke : ke ≤ m) (i : Nat) (hi : i < n)
    (js je : Nat) (hje : je ≤ p) :
    HT n p d (fun i' j' => ∃ u, js ≤ u ∧ u < je ∧ (i' = i ∧ j' = u))
      (fun i j c => c = dotAcc add mul m p d A B i j (cell p d C0 i j) ks)
      (fun i j c => c = dotAcc add mul m p d A B i j (cell p d C0 i j) ke)
      (fun C => forRange js je (fun j C => blk_cell add mul n m p A B ks ke i j C) C) := by
  refine HT_sweep (fun u i' j' => i' = i ∧ j' = u) ?_ _ _ _ je 1 (je - js) js ?_
  · intro u u' i' j' h h'
    exact h.2.symm.trans h'.2
  · intro t _ ht
    refine HT_congr ?_
      (blk_cell_HT add mul n m p d A B C0 hA hB ks ke hks hke i t hi (Nat.lt_of_lt_of_le ht hje))
    intro i' j' _ _
    constructor
    · rintro ⟨h1, h2⟩
      exact ⟨t, Nat.le_refl t, by omega, h1, h2⟩
    · rintro ⟨u, h1, h2, h3, h4⟩
      exact ⟨h3, by omega⟩

/-- The `i` loop of one tile triple. -/
theorem blk_iloop_HT {α : Type} (add mul : α → α → α) (n m p : Nat) (d : α)
    (A B C0 : List α) (hA : A.length = n * m) (hB : B.length = m * p)
    (ks ke : Nat) (hks : ks ≤ ke) (hke : ke ≤ m)
    (is ie : Nat) (hie : ie ≤ n) (js je : Nat) (hje : je ≤ p) :
    HT n p d (fun i' j' => ∃ u, is ≤ u ∧ u < ie ∧ (i' = u ∧ js ≤ j' ∧ j' < je))
      (fun i j c => c = dotAcc add mul m p d A B i j (cell p d C0 i j) ks)
      (fun i j c => c = dotAcc add mul m p d A B i j (cell p d C0 i j) ke)
      (fun C => forRange is ie (fun i C =>
        forRange js je (fun j C => blk_cell add mul n m p A B ks ke i j C) C) C) := by
  refine HT_sweep (fun u i' j' => i' = u ∧ js ≤ j' ∧ j' < je) ?_ _ _ _ ie 1 (ie - is) is ?_
  · intro u u' i' j' h h'
    exact h.1.symm.trans h'.1
  · intro t _ ht
    refine HT_congr ?_
      (blk_jloop_HT add mul n m p d A B C0 hA hB ks ke hks hke t (Nat.lt_of_lt_of_le ht hie)
        js je hje)
    intro i' j' _ _
    constructor
    · rintro ⟨u, h1, h2, h3, h4⟩
      exact ⟨t, Nat.le_refl t, by omega, h3, by omega, by omega⟩
    · rintro ⟨u, h1, h2, h3, h4, h5⟩
      exact ⟨j', h4, h5, by omega, rfl⟩

/-- The loop over shared-dimension tiles, for one row tile and column tile:
the cells of the tile go from their start value through all `m` terms. -/
theorem blk_ksloop_HT {α : Type} (add mul : α → α → α) (fuel n m p x : Nat) (d : α)
    (A B C0 : List α) (hA : A.length = n * m) (hB : B.length = m * p)
    (is ie : Nat) (hie : ie ≤ n) (js je : Nat) (hje : je ≤ p) :
    HT n p d (fun i' j' => ∃ u, is ≤ u ∧ u < ie ∧ (i' = u ∧ js ≤ j' ∧ j' < je))
      (fun i j c => c = dotAcc add mul m p d A B i j (cell p d C0 i j) 0)
      (fun i j c => c = dotAcc add mul m p d A B i j (cell p d C0 i j) m)
      (fun C => forLoop (fun ks C =>
        forRange is ie (fun i C =>
          forRange js je (fun j C =>
            blk_cell add mul n m p A B ks (min (ks + x) m) i j C) C) C) m x fuel 0 C) := by
  have h := HT_progress (n := n) (p := p) (d := d)
    (fun i' j' => ∃ u, is ≤ u ∧ u < ie ∧ (i' = u ∧ js ≤ j' ∧ j' < je))
    (fun t i j c => c = dotAcc add mul m p d A B i j (cell p d C0 i j) t)
    (fun ks C => forRange is ie (fun i C =>
      forRange js je (fun j C =>
        blk_cell add mul n m p A B ks (min (ks + x) m) i j C) C) C) m x fuel 0
    (fun t _ ht => blk_iloop_HT add mul n m p d A B C0 hA hB t (min (t + x) m)
      (by omega) (Nat.min_le_right _ _) is ie hie js je hje)
  rw [Nat.zero_min] at h
  exact h

/-- The loop over column tiles, for one row tile. -/
theorem blk_jsloop_HT {α : Type} (add mul : α → α → α) (fuel n m p x z : Nat) (d : α)
    (A B C0 : List α) (hA : A.length = n * m) (hB : B.length = m * p)
    (is ie : Nat) (hie : ie ≤ n) :
    HT n p d (fun i' j' => ∃ u, 0 ≤ u ∧ u < p ∧ (j' = u ∧ is ≤ i' ∧ i' < ie))
      (fun i j c => c = dotAcc add mul m p d A B i j (cell p d C0 i j) 0)
      (fun i j c => c = dotAcc add mul m p d A B i j (cell p d C0 i j) m)
      (fun C => forLoop (fun js C =>
        forLoop (fun ks C =>
          forRange is ie (fun i C =>
            forRange js (min (js + z) p) (fun j C =>
              blk_cell add mul n m p A B ks (min (ks + x) m) i j C) C) C) m x fuel 0 C)
        p z fuel 0 C) := by
  refine HT_sweep (fun u i' j' => j' = u ∧ is ≤ i' ∧ i' < ie) ?_ _ _ _ p z fuel 0 ?_
  · intro u u' i' j' h h'
    exact h.1.symm.trans h'.1
  · intro t _ _
    refine HT_congr ?_
      (blk_ksloop_HT add mul fuel n m p x d A B C0 hA hB is ie hie t (min (t + z) p)
        (Nat.min_le_right _ _))
    intro i' j' _ _
    constructor
    · rintro ⟨u, h1, h2, h3, h4, h5⟩
      exact ⟨j', h4, h5, rfl, by omega, by omega⟩
    · rintro ⟨u, h1, h2, h3, h4, h5⟩
      exact ⟨i', h4, h5, rfl, by omega, by omega⟩

/-- The whole blocked engine: every cell goes from its start value through all
`m` terms, whatever the tile sizes and the fuel. -/
theorem blk_engine_HT {α : Type} (add mul : α → α → α) (fuel n m p x y z : Nat) (d : α)
    (A B C0 : List α) (hA : A.length = n * m) (hB : B.length = m * p) :
    HT n p d (fun i' _ => ∃ u, 0 ≤ u ∧ u < n ∧ i' = u)
      (fun i j c => c = dotAcc add mul m p d A B i j (cell p d C0 i j) 0)
      (fun i j c => c = dotAcc add mul m p d A B i j (cell p d C0 i j) m)
      (fun C => S_matmult_blk add mul fuel n m p x y z A B C) := by
  refine HT_sweep (fun u i' _ => i' = u) ?_ _ _ _ n y fuel 0 ?_
  · intro u u' i' j' h h'
    exact h.symm.trans h'
  · intro t _ _
    refine HT_congr ?_
      (blk_jsloop_HT add mul fuel n m p x z d A B C0 hA hB t (min (t + y) n)
        (Nat.min_le_right _ _))
    intro i' j' _ hj'
    constructor
    · rintro ⟨u, h1, h2, h3, h4, h5⟩
      exact ⟨i', h4, h5, rfl⟩
    · rintro ⟨u, h1, h2, h3⟩
      exact ⟨j', Nat.zero_le _, hj', rfl, by omega, by omega⟩

/-- With positive tile sizes and fuel for `max n m p` iterations per loop the
blocked engine does not run out of fuel. -/
theorem blk_engine_fuel {α : Type} (add mul : α → α → α) (fuel n m p x y z : Nat)
    (A B C : List α) (hx : 0 < x) (hy : 0 < y) (hz : 0 < z)
    (hn : n ≤ fuel) (hm : m ≤ fuel) (hp : p ≤ fuel) :
    S_matmult_blk add mul fuel n m p x y z A B C ≠ .error .outOfFuel := by
  unfold S_matmult_blk
  refine forLoop_fuel _ n y hy ?_ fuel 0 C (by omega)
  intro is C1
  refine forLoop_fuel _ p z hz ?_ fuel 0 C1 (by omega)
  intro js C2
  refine forLoop_fuel _ m x hx ?_ fuel 0 C2 (by omega)
  intro ks C3
  refine forRange_fuel _ _ _ ?_ C3
  intro i C4
  refine forRange_fuel _ _ _ ?_ C4
  intro j C5
  exact blk_cell_fuel add mul n m p A B _ _ i j C5

/-- Total correctness of the blocked engine in terms of `dotAcc`. -/
theorem blk_engine_total {α : Type} (add mul : α → α → α) (fuel n m p x y z : Nat) (d : α)
    (A B C0 : List α) (hA : A.length = n * m) (hB : B.length = m * p)
    (hC : C0.length = n * p) (hx : 0 < x) (hy : 0 < y) (hz : 0 < z)
    (hn : n ≤ fuel) (hm : m ≤ fuel) (hp : p ≤ fuel) :
    ∃ C, S_matmult_blk add mul fuel n m p x y z A B C0 = .ok C ∧ C.length = n * p ∧
      ∀ i j, i < n → j < p →
        cell p d C i j = dotAcc add mul m p d A B i j (cell p d C0 i j) m := by
  have h := blk_engine_HT add mul fuel n m p x y z d A B C0 hA hB C0 hC
    (fun _ _ _ _ _ => rfl)
  obtain ⟨C, hC', hU⟩ := Wp_total h
    (blk_engine_fuel add mul fuel n m p x y z A B C0 hx hy hz hn hm hp)
  exact ⟨C, hC', hU.1, fun i j hi hj => hU.2.1 i j hi hj ⟨i, Nat.zero_le _, hi, rfl⟩⟩

/-! ## The naive engine on a square right factor (`p = m`) -/

/-- The body of the `j` loop of `S_matmult` when `p = m`: the cell is overwritten
with the full dot product started from `zero`. -/
theorem naive_cell_HT {α : Type} (zero : α) (add mul : α → α → α) (n m : Nat) (d : α)
    (A B : List α) (hA : A.length = n * m) (hB : B.length = m * m)
    (i j : Nat) (hi : i < n) (hj : j < m) :
    HT n m d (fun i' j' => i' = i ∧ j' = j) (fun _ _ _ => True)
      (fun i j c => c = dotAcc add mul m m d A B i j zero m)
      (fun C => do
        let cv ← forRange 0 m (fun k cv => do
          let a ← load A (ROWMJR i k n m)
          let b ← load B (ROWMJR k j m m)
          pure (add cv (mul a b))) zero
        store C (ROWMJR i j n m) cv) := by
  intro C hlen _
  refine Wp_bind (Wp_mono
    (kloop_wp add mul n m m d A B hA hB i j hi hj zero 0 m (Nat.zero_le m) (Nat.le_refl m)) ?_)
  intro cv hcv
  exact store_Upd n m d C hlen i j hi hj cv _ hcv

theorem naive_engine_HT {α : Type} (zero : α) (add mul : α → α → α) (n m : Nat) (d : α)
    (A B : List α) (hA : A.length = n * m) (hB : B.length = m * m) :
    HT n m d (fun i' _ => ∃ u, 0 ≤ u ∧ u < n ∧ i' = u) (fun _ _ _ => True)
      (fun i j c => c = dotAcc add mul m m d A B i j zero m)
      (fun C => S_matmult zero add mul n m m A B C) := by
  refine HT_sweep (fun u i' _ => i' = u) ?_ _ _ _ n 1 (n - 0) 0 ?_
  · intro u u' i' j' h h'
    exact h.symm.trans h'
  · intro t _ ht
    have hrow : HT n m d (fun i' j' => ∃ u, 0 ≤ u ∧ u < m ∧ (i' = t ∧ j' = u))
        (fun _ _ _ => True) (fun i j c => c = dotAcc add mul m m d A B i j zero m)
        (fun C => forRange 0 m (fun j C => do
          let cv ← forRange 0 m (fun k cv => do
            let a ← load A (ROWMJR t k n m)
            let b ← load B (ROWMJR k j m m)
            pure (add cv (mul a b))) zero
          store C (ROWMJR t j n m) cv) C) := by
      refine HT_sweep (fun u i' j' => i' = t ∧ j' = u) ?_ _ _ _ m 1 (m - 0) 0 ?_
      · intro u u' i' j' h h'
        exact h.2.symm.trans h'.2
      · intro j _ hj
        refine HT_congr ?_ (naive_cell_HT zero add mul n m d A B hA hB t j ht hj)
        intro i' j' _ _
        constructor
        · rintro ⟨h1, h2⟩
          exact ⟨j, Nat.le_refl j, by omega, h1, h2⟩
        · rintro ⟨u, h1, h2, h3, h4⟩
          exact ⟨h3, by omega⟩
    refine HT_congr ?_ hrow
    intro i' j' _ hj'
    constructor
    · rintro ⟨u, h1, h2, h3, h4⟩
      exact ⟨t, Nat.le_refl t, by omega, h3⟩
    · rintro ⟨u, h1, h2, h3⟩
      exact ⟨j', Nat.zero_le _, hj', by omega, rfl⟩

theorem naive_engine_fuel {α : Type} (zero : α) (add mul : α → α → α) (n m p : Nat)
    (A B C : List α) : S_matmult zero add mul n m p A B C ≠ .error .outOfFuel := by
  unfold S_matmult
  refine forRange_fuel _ _ _ ?_ C
  intro i C1
  refine forRange_fuel _ _ _ ?_ C1
  intro j C2
  exact bind_fuel (kloop_fuel add mul n m p A B i j 0 p zero) (fun cv => store_fuel _ _ _)

/-- Total correctness of the naive engine when the right factor is square. -/
theorem naive_engine_total {α : Type} (zero : α) (add mul : α → α → α) (n m : Nat) (d : α)
    (A B C0 : List α) (hA : A.length = n * m) (hB : B.length = m * m)
    (hC : C0.length = n * m) :
    ∃ C, S_matmult zero add mul n m m A B C0 = .ok C ∧ C.length = n * m ∧
      ∀ i j, i < n → j < m → cell m d C i j = dotAcc add mul m m d A B i j zero m := by
  have h := naive_engine_HT zero add mul n m d A B hA hB C0 hC (fun _ _ _ _ _ => trivial)
  obtain ⟨C, hC', hU⟩ := Wp_total h (naive_engine_fuel zero add mul n m m A B C0)
  exact ⟨C, hC', hU.1, fun i j hi hj => hU.2.1 i j hi hj ⟨i, Nat.zero_le _, hi, rfl⟩⟩

/-! ## From `dotAcc` to folds and sums -/

theorem dotAcc_eq_foldl {α : Type} (add mul : α → α → α) (m p : Nat) (d : α)
    (A B : List α) (i j : Nat) (c0 : α) (K : Nat) :
    dotAcc add mul m p d A B i j c0 K =
      (List.range K).foldl
        (fun c k => add c (mul (A.getD (i * m + k) d) (B.getD (k * p + j) d))) c0 := by
  induction K with
  | zero => rfl
  | succ K ih => rw [List.range_succ, List.foldl_append, ← ih]; rfl

theorem dotAcc_eq_sum {R : Type} [Semiring R] (m p : Nat) (A B : List R) (i j : Nat)
    (c0 : R) (K : Nat) :
    dotAcc (· + ·) (· * ·) m p 0 A B i j c0 K =
      c0 + ∑ k in Finset.range K, A.getD (i * m + k) 0 * B.getD (k * p + j) 0 := by
  induction K with
  | zero => simp [dotAcc]
  | succ K ih => rw [Finset.sum_range_succ, ← add_assoc, ← ih]; rfl

theorem cell_replicate {α : Type} (n p : Nat) (d : α) (i j : Nat) :
    cell p d (List.replicate (n * p) d) i j = d := by
  unfold cell
  rw [List.getD_eq_getElem?_getD]
  by_cases h : i * p + j < n * p
  · simp [List.getElem?_replicate, h]
  · simp [List.getElem?_replicate, h]

/-- Two `n × p` buffers with the same cells are the same buffer. -/
theorem ext_cells {α : Type} (n p : Nat) (d : α) (C C' : List α)
    (hC : C.length = n * p) (hC' : C'.length = n * p)
    (h : ∀ i j, i < n → j < p → cell p d C i j = cell p d C' i j) : C = C' := by
  apply List.ext_getElem (by rw [hC, hC'])
  intro idx h1 h2
  have hlt : idx < n * p := by rw [← hC]; exact h1
  have hp : 0 < p := by
    rcases Nat.eq_zero_or_pos p with h0 | h0
    · rw [h0] at hlt; simp at hlt
    · exact h0
  have hi : idx / p < n := by
    rw [Nat.div_lt_iff_lt_mul hp]; exact hlt
  have hj : idx % p < p := Nat.mod_lt _ hp
  have hidx : idx / p * p + idx % p = idx := by
    rw [Nat.mul_comm]; exact Nat.div_add_mod idx p
  have := h (idx / p) (idx % p) hi hj
  unfold cell at this
  rw [hidx, List.getD_eq_getElem?_getD, List.getD_eq_getElem?_getD,
    List.getElem?_eq_getElem h1, List.getElem?_eq_getElem h2] at this
  simpa using this

/-- Row `i` of `A` times column `j` of the identity is `A(i, j)`. -/
theorem dotAcc_identity {R : Type} [Semiring R] (m : Nat) (A B : List R)
    (hB : IsIdentity m B) (i j : Nat) (hj : j < m) :
    dotAcc (· + ·) (· * ·) m m 0 A B i j 0 m = cell m 0 A i j := by
  rw [dotAcc_eq_sum, zero_add]
  have hterm : ∀ k ∈ Finset.range m,
      A.getD (i * m + k) 0 * B.getD (k * m + j) 0 =
        if k = j then A.getD (i * m + j) 0 else 0 := by
    intro k hk
    rw [hB.2 k (Finset.mem_range.1 hk) j hj]
    by_cases hkj : k = j
    · simp [hkj]
    · simp [hkj]
  rw [Finset.sum_congr rfl hterm, Finset.sum_ite_eq' (Finset.range m) j]
  simp [hj, cell]

/-! ## The driver of the blocked program -/

/-- What `main` hands to the engine: the engine parameter `x` (step of the
shared dimension) is the `-y` value clamped to `n`, the engine parameter `y`
(step of the rows) is the `-x` value clamped to `m`. -/
theorem main_args_eq (n m p x y z : Nat) :
    main_args n m p x y z = (min y n, min x m, min z p) := by
  unfold main_args
  have h1 : (if y < n then y else n) = min y n := by
    by_cases h : y < n
    · rw [if_pos h, Nat.min_eq_left (Nat.le_of_lt h)]
    · rw [if_neg h, Nat.min_eq_right (Nat.le_of_not_lt h)]
  have h2 : (if x < m then x else m) = min x m := by
    by_cases h : x < m
    · rw [if_pos h, Nat.min_eq_left (Nat.le_of_lt h)]
    · rw [if_neg h, Nat.min_eq_right (Nat.le_of_not_lt h)]
  have h3 : (if z < p then z else p) = min z p := by
    by_cases h : z < p
    · rw [if_pos h, Nat.min_eq_left (Nat.le_of_lt h)]
    · rw [if_neg h, Nat.min_eq_right (Nat.le_of_not_lt h)]
  simp only [h1, h2, h3]

/-- A loop whose body never changes the state returns the start state unless
it runs out of fuel. -/
theorem forLoop_skip {σ : Type} (body : Nat → σ → Except Fault σ) (hi step : Nat)
    (hb : ∀ t s, body t s = .ok s) :
    ∀ (fuel lo : Nat) (s : σ), forLoop body hi step fuel lo s = .ok s ∨
      forLoop body hi step fuel lo s = .error .outOfFuel := by
  intro fuel
  induction fuel with
  | zero =>
    intro lo s
    by_cases hlt : lo < hi
    · right; simp [forLoop, hlt]
    · left; simp [forLoop, hlt]
  | succ f ih =>
    intro lo s
    by_cases hlt : lo < hi
    · simp only [forLoop, hlt, if_true, hb]
      exact ih (lo + step) s
    · left; simp [forLoop, hlt]

/-- With at least one row and an empty shared dimension the call that `main`
makes never returns: the row step it passes is `min x 0 = 0`. -/
theorem main_mult_diverges {α : Type} (zero : α) (add mul : α → α → α)
    (fuel n p x y z : Nat) (A B : List α) (hn : 0 < n) :
    main_mult zero add mul fuel n 0 p x y z A B = .error .outOfFuel := by
  unfold main_mult
  rw [main_args_eq]
  simp only [Nat.min_zero]
  unfold S_matmult_blk
  generalize List.replicate (n * p) zero = C
  have hks : ∀ (js : Nat) (C : List α) (is : Nat),
      forLoop (fun ks C =>
        forRange is (min (is + 0) n) (fun i C =>
          forRange js (min (js + min z p) p) (fun j C =>
            blk_cell add mul n 0 p A B ks (min (ks + min y n) 0) i j C) C) C)
        0 (min y n) fuel 0 C = .ok C := by
    intro js C is
    cases fuel <;> simp [forLoop]
  have key : ∀ body : Nat → List α → Except Fault (List α),
      (body 0 C = .ok C ∨ body 0 C = .error .outOfFuel) →
      forLoop body n 0 fuel 0 C = .error .outOfFuel := by
    intro body hb
    rcases hb with h | h
    · exact forLoop_stuck body n 0 C hn h fuel
    · cases fuel with
      | zero => simp [forLoop, hn]
      | succ f => simp [forLoop, hn, h]
  apply key
  exact forLoop_skip _ p (min z p) (fun js C => hks js C 0) fuel 0 C

/-! ## The naive engine on non-square right factors -/

/-- C1: the scenario `A = 1×3 [1,2,3]`, `B = 3×1 [4,5,6]` on the naive engine.
The `j` loop runs to `m = 3` and the `k` loop to `p = 1`, so the run writes
`C[1]` of a one-element buffer; given room for those writes, the engine leaves
`A[0]*B[j]` in `C[j]`, so `C[0]` is `4` and not `32`. -/
theorem S_matmult_row_times_column :
    S_matmult (0 : Int) (· + ·) (· * ·) 1 3 1 [1, 2, 3] [4, 5, 6] [0]
        = .error .outOfBounds ∧
      S_matmult (0 : Int) (· + ·) (· * ·) 1 3 1 [1, 2, 3] [4, 5, 6] [0, 0, 0]
        = .ok [4, 5, 6] :=
  ⟨rfl, rfl⟩

/-- C3: on `A = 1×3 [1,2,3]`, `B = 3×1 [4,5,6]` and a zeroed `C` the naive
engine stops on an out-of-bounds write while the blocked engine (unit tiles)
returns `[32]`: the two engines do not leave the same contents in `C`. -/
theorem naive_blocked_differ :
    S_matmult (0 : Int) (· + ·) (· * ·) 1 3 1 [1, 2, 3] [4, 5, 6] (List.replicate (1 * 1) 0)
        = .error .outOfBounds ∧
      S_matmult_blk (· + ·) (· * ·) 3 1 3 1 1 1 1 [1, 2, 3] [4, 5, 6]
        (List.replicate (1 * 1) (0 : Int)) = .ok [32] :=
  ⟨rfl, rfl⟩

/-- C8: index safety fails for the naive engine.  Whatever the values and the
arithmetic, on a `1×3` by `3×1` product the engine writes outside `C`; on a
`2×1` by `1×2` product it reads outside `B`. -/
theorem S_matmult_out_of_bounds {α : Type} (zero : α) (add mul : α → α → α)
    (a0 a1 a2 b0 b1 b2 c0 c1 c2 c3 : α) :
    S_matmult zero add mul 1 3 1 [a0, a1, a2] [b0, b1, b2] [c0] = .error .outOfBounds ∧
      S_matmult zero add mul 2 1 2 [a0, a1] [b0, b1] [c0, c1, c2, c3]
        = .error .outOfBounds :=
  ⟨rfl, rfl⟩

/-! ## The blocked engine -/

/-- C7: for positive tile sizes and any start contents `C0`, the blocked
engine returns, and each cell `(i, j)` holds the left fold that starts from
`C0(i, j)` and adds `A(i,k)*B(k,j)` for `k = 0, ..., m-1` in ascending order;
addition and multiplication are arbitrary binary operations. -/
theorem S_matmult_blk_left_fold {α : Type} (add mul : α → α → α) (d : α)
    (fuel n m p x y z : Nat) (A B C0 : List α)
    (hx : 0 < x) (hy : 0 < y) (hz : 0 < z)
    (hA : A.length = n * m) (hB : B.length = m * p) (hC : C0.length = n * p)
    (hn : n ≤ fuel) (hm : m ≤ fuel) (hp : p ≤ fuel) :
    ∃ C, S_matmult_blk add mul fuel n m p x y z A B C0 = .ok C ∧ C.length = n * p ∧
      ∀ i j, i < n → j < p →
        C.getD (i * p + j) d =
          (List.range m).foldl
            (fun c k => add c (mul (A.getD (i * m + k) d) (B.getD (k * p + j) d)))
            (C0.getD (i * p + j) d) := by
  obtain ⟨C, h1, h2, h3⟩ :=
    blk_engine_total add mul fuel n m p x y z d A B C0 hA hB hC hx hy hz hn hm hp
  refine ⟨C, h1, h2, ?_⟩
  intro i j hi hj
  rw [← dotAcc_eq_foldl]
  exact h3 i j hi hj

theorem S_matmult_blk_left_fold_witness :
    ∃ C, S_matmult_blk (fun a b : Int => a - b) (fun a b : Int => 2 * a + b)
        2 2 2 2 1 2 1 [1, 2, 3, 4] [5, 6, 7, 8] [9, 9, 9, 9] = .ok C ∧ C.length = 2 * 2 ∧
      ∀ i j, i < 2 → j < 2 →
        C.getD (i * 2 + j) 0 =
          (List.range 2).foldl
            (fun c k => (fun a b : Int => a - b) c ((fun a b : Int => 2 * a + b)
              (([1, 2, 3, 4] : List Int).getD (i * 2 + k) 0)
              (([5, 6, 7, 8] : List Int).getD (k * 2 + j) 0)))
            (([9, 9, 9, 9] : List Int).getD (i * 2 + j) 0) :=
  S_matmult_blk_left_fold (fun a b : Int => a - b) (fun a b : Int => 2 * a + b) 0
    2 2 2 2 1 2 1 [1, 2, 3, 4] [5, 6, 7, 8] [9, 9, 9, 9]
    (by decide) (by decide) (by decide) rfl rfl rfl (by decide) (by decide) (by decide)

/-- C2: over a semiring, for positive tile sizes and a zero-initialised `C`,
the blocked engine returns and every cell `(i, j)` holds
`∑ k < m, A[i*m+k] * B[k*p+j]`. -/
theorem S_matmult_blk_product {R : Type} [Semiring R] (fuel n m p x y z : Nat)
    (A B : List R) (hx : 0 < x) (hy : 0 < y) (hz : 0 < z)
    (hA : A.length = n * m) (hB : B.length = m * p)
    (hn : n ≤ fuel) (hm : m ≤ fuel) (hp : p ≤ fuel) :
    ∃ C, S_matmult_blk (· + ·) (· * ·) fuel n m p x y z A B (List.replicate (n * p) 0)
        = .ok C ∧ C.length = n * p ∧
      ∀ i j, i < n → j < p →
        C.getD (i * p + j) 0 =
          ∑ k in Finset.range m, A.getD (i * m + k) 0 * B.getD (k * p + j) 0 := by
  obtain ⟨C, h1, h2, h3⟩ :=
    blk_engine_total (· + ·) (· * ·) fuel n m p x y z (0 : R) A B (List.replicate (n * p) 0)
      hA hB (List.length_replicate _ _) hx hy hz hn hm hp
  refine ⟨C, h1, h2, ?_⟩
  intro i j hi hj
  have h := h3 i j hi hj
  rw [cell_replicate, dotAcc_eq_sum, zero_add] at h
  exact h

theorem S_matmult_blk_product_witness :
    ∃ C, S_matmult_blk (· + ·) (· * ·) 2 2 2 2 1 1 1 [1, 2, 3, 4] [5, 6, 7, 8]
        (List.replicate (2 * 2) (0 : Int)) = .ok C ∧ C.length = 2 * 2 ∧
      ∀ i j, i < 2 → j < 2 →
        C.getD (i * 2 + j) 0 =
          ∑ k in Finset.range 2, ([1, 2, 3, 4] : List Int).getD (i * 2 + k) 0 *
            ([5, 6, 7, 8] : List Int).getD (k * 2 + j) 0 :=
  S_matmult_blk_product 2 2 2 2 1 1 1 [1, 2, 3, 4] [5, 6, 7, 8]
    (by decide) (by decide) (by decide) rfl rfl (by decide) (by decide) (by decide)

/-- The 2×2 scenario evaluated on the blocked engine for every choice of tile
sizes in `{1, 2}` (the tiles are listed in the order `x y z`). -/
theorem S_matmult_blk_scenario :
    List.map
      (fun t : Nat × Nat × Nat =>
        S_matmult_blk (· + ·) (· * ·) 2 2 2 2 t.1 t.2.1 t.2.2 [1, 2, 3, 4] [5, 6, 7, 8]
          [0, 0, 0, (0 : Int)])
      [(1, 1, 1), (1, 1, 2), (1, 2, 1), (1, 2, 2), (2, 1, 1), (2, 1, 2), (2, 2, 1), (2, 2, 2)]
      = List.replicate 8 (.ok [19, 22, 43, 50]) :=
  rfl

/-- C9: with buffers of the stated sizes and positive tile sizes the blocked
engine never stops on an out-of-bounds access, whatever the fuel, and with
fuel for `max n m p` iterations per loop it runs to completion. -/
theorem S_matmult_blk_index_safe {α : Type} [Inhabited α] (add mul : α → α → α)
    (n m p x y z : Nat) (A B C0 : List α)
    (hx : 0 < x) (hy : 0 < y) (hz : 0 < z)
    (hA : A.length = n * m) (hB : B.length = m * p) (hC : C0.length = n * p) :
    (∀ fuel, S_matmult_blk add mul fuel n m p x y z A B C0 ≠ .error .outOfBounds) ∧
      ∀ fuel, n ≤ fuel → m ≤ fuel → p ≤ fuel →
        ∃ C, S_matmult_blk add mul fuel n m p x y z A B C0 = .ok C ∧ C.length = n * p := by
  constructor
  · intro fuel
    exact Wp_not_oob
      (blk_engine_HT add mul fuel n m p x y z default A B C0 hA hB C0 hC
        (fun _ _ _ _ _ => rfl))
  · intro fuel hn hm hp
    obtain ⟨C, h1, h2, _⟩ :=
      blk_engine_total add mul fuel n m p x y z default A B C0 hA hB hC hx hy hz hn hm hp
    exact ⟨C, h1, h2⟩

theorem S_matmult_blk_index_safe_witness :
    (∀ fuel, S_matmult_blk (· + ·) (· * ·) fuel 2 3 1 2 2 2 [1, 2, 3, 4, 5, 6] [1, 0, 1]
        [0, (0 : Int)] ≠ .error .outOfBounds) ∧
      ∀ fuel, 2 ≤ fuel → 3 ≤ fuel → 1 ≤ fuel →
        ∃ C, S_matmult_blk (· + ·) (· * ·) fuel 2 3 1 2 2 2 [1, 2, 3, 4, 5, 6] [1, 0, 1]
          [0, (0 : Int)] = .ok C ∧ C.length = 2 * 1 :=
  S_matmult_blk_index_safe (· + ·) (· * ·) 2 3 1 2 2 2 [1, 2, 3, 4, 5, 6] [1, 0, 1] [0, 0]
    (by decide) (by decide) (by decide) rfl rfl rfl

/-! ## Multiplication by the identity -/

/-- C6: over a semiring, if `B` is the `m × m` identity then the naive engine
(on any `C` of the right size) and the blocked engine (positive tile sizes,
zero-initialised `C`) both return `A`. -/
theorem matmult_identity {R : Type} [Semiring R] (fuel n m x y z : Nat)
    (A B C0 : List R) (hx : 0 < x) (hy : 0 < y) (hz : 0 < z)
    (hA : A.length = n * m) (hB : IsIdentity m B) (hC : C0.length = n * m)
    (hn : n ≤ fuel) (hm : m ≤ fuel) :
    S_matmult 0 (· + ·) (· * ·) n m m A B C0 = .ok A ∧
      S_matmult_blk (· + ·) (· * ·) fuel n m m x y z A B (List.replicate (n * m) 0)
        = .ok A := by
  constructor
  · obtain ⟨C, h1, h2, h3⟩ :=
      naive_engine_total (0 : R) (· + ·) (· * ·) n m 0 A B C0 hA hB.1 hC
    rw [h1, ext_cells n m 0 C A h2 hA
      (fun i j hi hj => (h3 i j hi hj).trans (dotAcc_identity m A B hB i j hj))]
  · obtain ⟨C, h1, h2, h3⟩ :=
      blk_engine_total (· + ·) (· * ·) fuel n m m x y z (0 : R) A B
        (List.replicate (n * m) 0) hA hB.1 (List.length_replicate _ _) hx hy hz hn hm hm
    rw [h1, ext_cells n m 0 C A h2 hA
      (fun i j hi hj => by
        rw [h3 i j hi hj, cell_replicate]
        exact dotAcc_identity m A B hB i j hj)]

theorem matmult_identity_witness :
    S_matmult (0 : Int) (· + ·) (· * ·) 3 2 2 [1, 2, 3, 4, 5, 6] [1, 0, 0, 1]
        [7, 7, 7, 7, 7, 7] = .ok [1, 2, 3, 4, 5, 6] ∧
      S_matmult_blk (· + ·) (· * ·) 3 3 2 2 2 1 2 [1, 2, 3, 4, 5, 6] [1, 0, 0, 1]
        (List.replicate (3 * 2) (0 : Int)) = .ok [1, 2, 3, 4, 5, 6] :=
  matmult_identity 3 3 2 2 1 2 [1, 2, 3, 4, 5, 6] [1, 0, 0, 1] [7, 7, 7, 7, 7, 7]
    (by decide) (by decide) (by decide) rfl ⟨rfl, by decide⟩ rfl (by decide) (by decide)

/-! ## The driver of the blocked program: claims -/

/-- C4: with flags `-x 1 -y 2 -z 1` and `n = m = p = 2` the engine receives
`x = 2`, `y = 1`, `z = 1`: it steps by `2` along the shared dimension and by
`1` along the rows, where clamping each flag to its own dimension gives
`min x m = 1` and `min y n = 2`. -/
theorem main_passes_swapped_tiles :
    main_args 2 2 2 1 2 1 = (2, 1, 1) ∧ (min 1 2, min 2 2, min 1 2) = (1, 2, 1) :=
  ⟨rfl, rfl⟩

/-- C5: `-x -1` passes validation (the value becomes `2^64 - 1` before it is
tested), while `-t -1` and `-x 0` abort. -/
theorem main_accepts_negative_tile :
    main_config [('x', -1)] 3 = .proceed ⟨1, 2 ^ 64 - 1, 1, 1⟩ ∧
      main_config [('t', -1)] 3 = .abort ∧ main_config [('x', 0)] 3 = .abort :=
  ⟨by decide, by decide, by decide⟩

/-- C10: for `A` of size `1×0` and `B` of size `0×1`, with the default flags,
the call that `main` makes exhausts every amount of fuel: it does not
terminate. -/
theorem main_mult_never_returns (fuel : Nat) :
    main_mult (0 : Int) (· + ·) (· * ·) fuel 1 0 1 1 1 1 [] [] = .error .outOfFuel :=
  main_mult_diverges (0 : Int) (· + ·) (· * ·) fuel 1 1 1 1 1 [] [] Nat.one_pos

end MatMult

